import Mathlib

/-!
Shallow embedding of `src/nn/var_store.rs` (variable stores for a tensor
library binding).  Tensors are reference-shared buffers: we model them as
indices (`TensorId`) into a heap (`List TensorData`), so that a shallow
clone is the same index and in-place mutation through one handle is visible
through every handle.  The Rust `Mutex<HashMap<String, Variable>>` is
modelled as an association list with unique insertion semantics
(`insertA` replaces the entry in place when the key exists, otherwise
appends); the list order stands for the map's (unspecified) iteration
order, and the lock is elided since the embedding is sequential.  Rust
panics (`panic!` on separator violations, and the panicking `copy_`) are
modelled as the `Except.error` branch: an aborted call produces no
successor state, so in particular the store map is unchanged.
`no_grad` blocks are the identity here because the embedding has no
autograd tape.
-/

namespace Tch

/-- Compute devices, as in `tch::Device`. -/
inductive Device
  | Cpu
  | Cuda (idx : Nat)
deriving DecidableEq, Repr

/-- Numeric kinds; only `Float` is used by the var store (`Kind::Float`). -/
inductive Kind
  | Float
deriving DecidableEq, Repr

/-- The observable data of one tensor buffer: shape, flattened contents
(abstracted to rationals in place of f32/f64), kind, device and the
requires-grad flag toggled by `set_requires_grad`. -/
structure TensorData where
  shape : List Int
  values : List Rat
  kind : Kind
  device : Device
  requiresGrad : Bool
deriving DecidableEq, Repr

/-- A tensor handle: an index into the heap of shared buffers.  A shallow
clone is the same index. -/
abbrev TensorId := Nat

/-- The heap of tensor buffers. -/
abbrev Heap := List TensorData

/-- Default tensor data used for out-of-range heap reads (never reached on
well-formed states). -/
def dfltT : TensorData := ⟨[], [], Kind.Float, Device.Cpu, false⟩

/-- Read a buffer from the heap. -/
def getT (h : Heap) (id : TensorId) : TensorData :=
  h.getD id dfltT

/-- In-place `set_requires_grad` on the buffer behind a handle. -/
def setRG (h : Heap) (id : TensorId) (b : Bool) : Heap :=
  h.set id { getT h id with requiresGrad := b }

/-- In-place overwrite of a buffer's contents (the value part of `copy_`). -/
def copyValues (h : Heap) (dst : TensorId) (vals : List Rat) : Heap :=
  h.set dst { getT h dst with values := vals }

/-- Allocate a fresh buffer, returning the new heap and the handle. -/
def alloc (h : Heap) (t : TensorData) : Heap × TensorId :=
  (h ++ [t], h.length)

/-- Modelled from the spec: the fallible in-place copy primitive
`Tensor::f_copy_` of the external tensor backend ("in-place value copy,
fallible variant surfaces shape/device mismatch").  The backend supports
cross-device and cross-kind copies, so the failure condition is a shape
mismatch between destination and source; the error text stands for the
backend's message. -/
def fCopy (h : Heap) (dst : TensorId) (src : TensorData) : Except String Heap :=
  if (getT h dst).shape = src.shape then .ok (copyValues h dst src.values)
  else .error "copy: shape mismatch"

/-- `Variable`: a tensor handle paired with its trainable flag
(`struct Variable` in the source). -/
structure Variable where
  tensor : TensorId
  trainable : Bool
deriving DecidableEq, Repr

/-- The whole program state: the tensor heap together with one `VarStore`
(its name-to-variable map, in iteration order, and its device). -/
structure State where
  heap : Heap
  vars : List (String × Variable)
  device : Device
deriving DecidableEq, Repr

/-- Lookup in the association-list view of `HashMap<String, _>`. -/
def lookupA {β : Type} : List (String × β) → String → Option β
  | [], _ => none
  | (k', v) :: rest, k => if k' = k then some v else lookupA rest k

/-- `HashMap::contains_key`. -/
def containsKey {β : Type} (m : List (String × β)) (k : String) : Bool :=
  (lookupA m k).isSome

/-- `HashMap::insert`: replace the entry in place when the key exists,
otherwise add a new entry. -/
def insertA {β : Type} : List (String × β) → String → β → List (String × β)
  | [], k, v => [(k, v)]
  | (k', v') :: rest, k, v =>
    if k' = k then (k, v) :: rest else (k', v') :: insertA rest k v

/-- The path-element separator, `const SEP: char = '|'`. -/
def SEP : Char := '|'

/-- `s.chars().any(|x| x == SEP)`: does the string contain the separator? -/
def hasSep (s : String) : Bool :=
  s.data.any (fun c => c = SEP)

/-- `VarStore::new(device)`: empty map on the given device (fresh heap). -/
def VarStore.new (device : Device) : State :=
  { heap := [], vars := [], device := device }

/-- `VarStore::trainable_variables`: shallow clones of every tensor whose
trainable flag is set, in iteration order. -/
def VarStore.trainable_variables (s : State) : List TensorId :=
  s.vars.filterMap (fun nv => if nv.2.trainable then some nv.2.tensor else none)

/-- `Path`: a namespace cursor; in the source it also borrows the store,
which the embedding passes explicitly as `State`. -/
structure Path where
  path : List String
deriving DecidableEq, Repr

/-- `VarStore::root`: the empty-segment path. -/
def VarStore.root : Path := ⟨[]⟩

/-- `VarStore::save`'s snapshot: the `(name, tensor)` pairs handed to the
external `Tensor::save_multi` codec, with the buffer contents resolved. -/
def VarStore.save (s : State) : List (String × TensorData) :=
  s.vars.map (fun nv => (nv.1, getT s.heap nv.2.tensor))

/-- Rust `Vec<String>::join(sep)`. -/
def joinSep (sep : String) : List String → String
  | [] => ""
  | [a] => a
  | a :: b :: rest => a ++ sep ++ joinSep sep (b :: rest)

/-- `Path::sub`: panics (modelled as `Except.error`) when the segment
contains the separator, otherwise extends the segment list. -/
def Path.sub (p : Path) (s : String) : Except String Path :=
  if hasSep s then
    .error ("sub name cannot contain " ++ SEP.toString ++ " " ++ s)
  else
    .ok ⟨p.path ++ [s]⟩

/-- `Path::device` delegates to the bound store. -/
def Path.device (_p : Path) (s : State) : Device := s.device

/-- `Path::path(name)` (named `pathName` here because `path` is the field):
validates the leaf name and computes the fully-qualified name. -/
def Path.pathName (p : Path) (name : String) : Except String String :=
  if hasSep name then
    .error ("variable name cannot contain " ++ SEP.toString ++ " " ++ name)
  else if p.path.isEmpty then
    .ok name
  else
    .ok (joinSep SEP.toString p.path ++ SEP.toString ++ name)

/-- The key actually inserted by `Path::add` once the fully-qualified name
`nm` is known: the collision fallback appends `__` and the current map
size. -/
def resolvedKey {β : Type} (m : List (String × β)) (nm : String) : String :=
  if containsKey m nm then nm ++ "__" ++ toString m.length else nm

/-- `Path::add(name, tensor, trainable)`: compute the fully-qualified name
(panic propagates), apply the collision fallback, set requires-grad when
trainable, store a shallow clone and return the caller's handle. -/
def Path.add (p : Path) (s : State) (name : String) (tensor : TensorId)
    (trainable : Bool) : Except String (State × TensorId) := do
  let nm ← p.pathName name
  let key := resolvedKey s.vars nm
  let h := if trainable then setRG s.heap tensor true else s.heap
  .ok ({ s with heap := h, vars := insertA s.vars key ⟨tensor, trainable⟩ }, tensor)

/-- `Tensor::zeros(dims, (Kind::Float, device))` of the external backend. -/
def zerosT (dims : List Int) (device : Device) : TensorData :=
  { shape := dims
    values := List.replicate (dims.map Int.toNat).prod 0
    kind := Kind.Float
    device := device
    requiresGrad := false }

/-- `Tensor::ones(dims, (Kind::Float, device))` of the external backend. -/
def onesT (dims : List Int) (device : Device) : TensorData :=
  { shape := dims
    values := List.replicate (dims.map Int.toNat).prod 1
    kind := Kind.Float
    device := device
    requiresGrad := false }

/-- `Path::zeros_no_train`. -/
def Path.zeros_no_train (p : Path) (s : State) (name : String)
    (dims : List Int) : Except String (State × TensorId) :=
  let (h, z) := alloc s.heap (zerosT dims s.device)
  p.add { s with heap := h } name z false

/-- `Path::ones_no_train`. -/
def Path.ones_no_train (p : Path) (s : State) (name : String)
    (dims : List Int) : Except String (State × TensorId) :=
  let (h, o) := alloc s.heap (onesT dims s.device)
  p.add { s with heap := h } name o false

/-- `Init`: the declarative initialization specifications (f64 parameters
abstracted to rationals). -/
inductive Init
  | Const (v : Rat)
  | Randn (mean stdev : Rat)
  | Uniform (lo up : Rat)
  | KaimingUniform
deriving DecidableEq, Repr

/-- Modelled from the spec: the external initialization bridge
`init(spec, shape, device)` (`super::init`, outside `src/`), which returns
a freshly allocated tensor of the given shape on the given device with
values per the distribution.  The randomness source is unspecified by the
spec, so non-constant distributions are represented by an arbitrary fixed
sample; no claim depends on the sampled values. -/
def init (i : Init) (dims : List Int) (device : Device) : TensorData :=
  match i with
  | .Const v =>
    { shape := dims
      values := List.replicate (dims.map Int.toNat).prod v
      kind := Kind.Float
      device := device
      requiresGrad := false }
  | _ =>
    { shape := dims
      values := List.replicate (dims.map Int.toNat).prod 0
      kind := Kind.Float
      device := device
      requiresGrad := false }

/-- `Path::var(name, dims, init)`: trainable variable with bridged
initialization. -/
def Path.var (p : Path) (s : State) (name : String) (dims : List Int)
    (i : Init) : Except String (State × TensorId) :=
  let (h, v) := alloc s.heap (init i dims s.device)
  p.add { s with heap := h } name v true

/-- `Path::zeros`. -/
def Path.zeros (p : Path) (s : State) (name : String) (dims : List Int) :
    Except String (State × TensorId) :=
  p.var s name dims (Init.Const 0)

/-- `Path::ones`. -/
def Path.ones (p : Path) (s : State) (name : String) (dims : List Int) :
    Except String (State × TensorId) :=
  p.var s name dims (Init.Const 1)

/-- `Path::randn_standard`. -/
def Path.randn_standard (p : Path) (s : State) (name : String)
    (dims : List Int) : Except String (State × TensorId) :=
  p.var s name dims (Init.Randn 0 1)

/-- `Path::randn`. -/
def Path.randn (p : Path) (s : State) (name : String) (dims : List Int)
    (mean stdev : Rat) : Except String (State × TensorId) :=
  p.var s name dims (Init.Randn mean stdev)

/-- `Path::uniform`. -/
def Path.uniform (p : Path) (s : State) (name : String) (dims : List Int)
    (lo up : Rat) : Except String (State × TensorId) :=
  p.var s name dims (Init.Uniform lo up)

/-- `Path::kaiming_uniform`. -/
def Path.kaiming_uniform (p : Path) (s : State) (name : String)
    (dims : List Int) : Except String (State × TensorId) :=
  p.var s name dims Init.KaimingUniform

/-- `Path::var_copy(name, t)`: a trainable zero variable of `t`'s shape,
whose contents are then overwritten from `t` inside `no_grad` using the
panicking copy primitive `copy_` (panic modelled as `Except.error`). -/
def Path.var_copy (p : Path) (s : State) (name : String) (t : TensorId) :
    Except String (State × TensorId) := do
  let (s1, v) ← p.zeros s name (getT s.heap t).shape
  let h ← fCopy s1.heap v (getT s1.heap t)
  .ok ({ s1 with heap := h }, v)

/-- The `Div` operator on paths, `path / name`, defined as `sub`. -/
def Path.div (p : Path) (rhs : String) : Except String Path :=
  p.sub rhs

/-- The loop body of `VarStore::load`: walk the store's variables in
iteration order; for each, copy the matching bundle tensor's values in
place (the copy error is wrapped with the variable's name), or stop with
the not-found error.  Returns the (possibly partially updated) heap. -/
def loadGo (file : String) (ntMap : List (String × TensorData)) :
    Heap → List (String × Variable) → Heap × Except String Unit
  | h, [] => (h, .ok ())
  | h, (name, v) :: rest =>
    match lookupA ntMap name with
    | some src =>
      match fCopy h v.tensor src with
      | .ok h' => loadGo file ntMap h' rest
      | .error e => (h, .error (name ++ ": " ++ e))
    | none => (h, .error ("cannot find " ++ name ++ " in " ++ file))

/-- `HashMap::from_iter` on the bundle returned by `Tensor::load_multi`:
pairs are inserted in bundle order, so a later pair with the same name
replaces an earlier one. -/
def collectMap (bundle : List (String × TensorData)) :
    List (String × TensorData) :=
  bundle.foldl (fun m nt => insertA m nt.1 nt.2) []

/-- `VarStore::load`: `bundle` is the named-tensor list the external
`Tensor::load_multi` read from `file` (an I/O failure there would
propagate before this body runs).  Returns the mutated state together with
the outcome; there is no rollback on error. -/
def VarStore.load (s : State) (bundle : List (String × TensorData))
    (file : String) : State × Except String Unit :=
  let ntMap := collectMap bundle
  let (h, r) := loadGo file ntMap s.heap s.vars
  ({ s with heap := h }, r)

/-- The heap transformation shared by `freeze` and `unfreeze`: walk the
variables and call `set_requires_grad b` on every trainable one. -/
def freezeHeap (h : Heap) (vars : List (String × Variable)) (b : Bool) :
    Heap :=
  vars.foldl (fun h' nv => if nv.2.trainable then setRG h' nv.2.tensor b else h') h

/-- `VarStore::freeze`. -/
def VarStore.freeze (s : State) : State :=
  { s with heap := freezeHeap s.heap s.vars false }

/-- `VarStore::unfreeze`. -/
def VarStore.unfreeze (s : State) : State :=
  { s with heap := freezeHeap s.heap s.vars true }

/-- The trainable entries of the store with their names: the
identity-by-name view of `trainable_variables`. -/
def trainableNamed (s : State) : List (String × TensorId) :=
  s.vars.filterMap (fun nv => if nv.2.trainable then some (nv.1, nv.2.tensor) else none)

/-- A gradient-tracking toggle: one `freeze()` or `unfreeze()` call. -/
inductive TOp
  | freeze
  | unfreeze
deriving DecidableEq, Repr

/-- Run a sequence of `freeze`/`unfreeze` calls on a store. -/
def runT (s : State) : List TOp → State
  | [] => s
  | .freeze :: rest => runT (VarStore.freeze s) rest
  | .unfreeze :: rest => runT (VarStore.unfreeze s) rest

/-- Derive a path through a sequence of `sub` calls. -/
def subChain (p : Path) : List String → Except String Path
  | [] => .ok p
  | sg :: rest => do subChain (← p.sub sg) rest

/-- The value of the last pair of `bundle` carrying name `n`, the reading
of the spec sentence "the values of the last such pair in the bundle's
order". -/
def lastLookup (bundle : List (String × TensorData)) (n : String) :
    Option TensorData :=
  ((bundle.filter (fun nt => nt.1 == n)).getLast?).map Prod.snd

/-- A concrete CPU tensor literal used by the concrete runs below. -/
def mkT (shape : List Int) (vals : List Rat) : TensorData :=
  { shape := shape, values := vals, kind := Kind.Float, device := Device.Cpu
    requiresGrad := false }

/-- Concrete run: create `"a__2"` in a fresh store. -/
def c1run1 : Except String (State × TensorId) :=
  VarStore.root.zeros_no_train (VarStore.new Device.Cpu) "a__2" [1]

/-- Concrete run: then create `"a"`. -/
def c1run2 : Except String (State × TensorId) := do
  let (s1, _) ← c1run1
  VarStore.root.zeros_no_train s1 "a" [1]

/-- Concrete run: then create `"a"` again, whose collision fallback
resolves to the already-present key `"a__2"`. -/
def c1run3 : Except String (State × TensorId) := do
  let (s2, _) ← c1run2
  VarStore.root.zeros_no_train s2 "a" [1]

/-- A concrete store with two variables `"a"` and `"b"` (shape `[1]`,
values `[5]` and `[6]`). -/
def cLoadState : State :=
  { heap := [mkT [1] [5], mkT [1] [6]]
    vars := [("a", ⟨0, false⟩), ("b", ⟨1, false⟩)]
    device := Device.Cpu }

/-- A concrete bundle containing `"a"` only (value `[7]`). -/
def cLoadBundle : List (String × TensorData) := [("a", mkT [1] [7])]

/-- A concrete one-variable store used for the duplicate-bundle run. -/
def cDupState : State :=
  { heap := [mkT [1] [5]]
    vars := [("x", ⟨0, false⟩)]
    device := Device.Cpu }

/-- A concrete bundle with two pairs named `"x"` (values `[7]` then `[9]`). -/
def cDupBundle : List (String × TensorData) :=
  [("x", mkT [1] [7]), ("x", mkT [1] [9])]

/-- A concrete one-variable store (variable `"x"`) with a spare tensor. -/
def cC1s : State :=
  { heap := [mkT [1] [0], mkT [1] [0]]
    vars := [("x", ⟨0, false⟩)]
    device := Device.Cpu }

/-- The store `cC1s` after `add "y" 1 false` (a fresh, collision-free key). -/
def cC1after : State :=
  { heap := [mkT [1] [0], mkT [1] [0]]
    vars := [("x", ⟨0, false⟩), ("y", ⟨1, false⟩)]
    device := Device.Cpu }

/-- A concrete store already holding `"w"`, with a spare tensor `1`. -/
def cC2before : State :=
  { heap := [mkT [1] [0], mkT [1] [3]]
    vars := [("w", ⟨0, false⟩)]
    device := Device.Cpu }

/-- The store `cC2before` after a colliding `add "w" 1 false`, which lands
under the disambiguated key `"w__1"`. -/
def cC2after : State :=
  { heap := [mkT [1] [0], mkT [1] [3]]
    vars := [("w", ⟨0, false⟩), ("w__1", ⟨1, false⟩)]
    device := Device.Cpu }

/-- A fresh store after `add "w" 0 true`. -/
def cC4after : State :=
  { heap := [], vars := [("w", ⟨0, true⟩)], device := Device.Cpu }

/-- A concrete store with one variable `"a"` of shape `[1]`. -/
def cC7s : State :=
  { heap := [mkT [1] [5]]
    vars := [("a", ⟨0, false⟩)]
    device := Device.Cpu }

/-- A concrete bundle whose `"a"` entry has the wrong shape `[2]`. -/
def cC7bundle : List (String × TensorData) := [("a", mkT [2] [7, 8])]

/-- The store `cC7s` after `zeros "n" [1]` (the first stage of
`var_copy "n"` from tensor `0`). -/
def cC7s1 : State :=
  { heap := [mkT [1] [5],
             { shape := [1], values := [0], kind := Kind.Float
               device := Device.Cpu, requiresGrad := true }]
    vars := [("a", ⟨0, false⟩), ("n", ⟨1, true⟩)]
    device := Device.Cpu }

/-! ### Helper lemmas about the association-list map -/

theorem lookupA_insertA {β : Type} (m : List (String × β)) (k k' : String)
    (v : β) :
    lookupA (insertA m k v) k' = if k' = k then some v else lookupA m k' := by
  induction m with
  | nil =>
    by_cases h : k' = k
    · subst h; simp [insertA, lookupA]
    · simp [insertA, lookupA, h, Ne.symm h]
  | cons nv rest ih =>
    obtain ⟨k0, v0⟩ := nv
    by_cases h0 : k0 = k
    · subst h0
      by_cases h1 : k' = k0
      · subst h1; simp [insertA, lookupA]
      · simp [insertA, lookupA, h1, Ne.symm h1]
    · by_cases h1 : k0 = k'
      · subst h1
        simp [insertA, lookupA, h0, Ne.symm h0]
      · simp [insertA, lookupA, h0, h1, ih]

theorem containsKey_insertA {β : Type} (m : List (String × β))
    (k k' : String) (v : β) :
    containsKey (insertA m k v) k' =
      (if k' = k then true else containsKey m k') := by
  by_cases h : k' = k <;> simp [containsKey, lookupA_insertA, h]

theorem lookupA_map_snd {β γ : Type} (f : β → γ)
    (m : List (String × β)) (k : String) :
    lookupA (m.map (fun nv => (nv.1, f nv.2))) k = (lookupA m k).map f := by
  induction m with
  | nil => simp [lookupA]
  | cons nv rest ih =>
    by_cases h : nv.1 = k <;> simp [lookupA, h, ih]

/-! ### Helper lemmas about the tensor heap -/

theorem length_setRG (h : Heap) (id : TensorId) (b : Bool) :
    (setRG h id b).length = h.length := by
  simp [setRG]

theorem getT_setRG (h : Heap) (id : TensorId) (b : Bool) (j : Nat) :
    getT (setRG h id b) j =
      if id = j ∧ id < h.length then { getT h id with requiresGrad := b }
      else getT h j := by
  simp only [setRG, getT, List.getD_eq_getElem?_getD, List.getElem?_set]
  by_cases hij : id = j
  · subst hij
    by_cases hl : id < h.length
    · simp [hl]
    · simp [hl, List.getElem?_eq_none (Nat.le_of_not_lt hl)]
  · simp [hij]

theorem getT_append1 (h : Heap) (t : TensorData) (j : Nat) :
    getT (h ++ [t]) j =
      if j < h.length then getT h j
      else if j = h.length then t else dfltT := by
  simp only [getT, List.getD_eq_getElem?_getD, List.getElem?_append]
  by_cases hl : j < h.length
  · simp [hl]
  · by_cases he : j = h.length
    · subst he
      simp [hl, List.getElem?_concat_length, List.getElem?_eq_none (Nat.le_refl _)]
    · have hgt : h.length < j := Nat.lt_of_le_of_ne (Nat.le_of_not_lt hl) (Ne.symm he)
      have h1 : ([t] : Heap)[j - h.length]? = none := by
        apply List.getElem?_eq_none
        simp only [List.length_singleton]
        omega
      simp [hl, he, h1, List.getElem?_eq_none (Nat.le_of_not_lt hl)]

theorem heap_ext (h1 h2 : Heap) (hlen : h1.length = h2.length)
    (hp : ∀ i, getT h1 i = getT h2 i) : h1 = h2 := by
  apply List.ext_getElem hlen
  intro i hi1 hi2
  have := hp i
  simpa only [getT, List.getD_eq_getElem?_getD, List.getElem?_eq_getElem hi1,
    List.getElem?_eq_getElem hi2, Option.getD_some] using this

/-! ### Helper lemmas about freeze and unfreeze -/

theorem freezeHeap_cons (nv : String × Variable)
    (rest : List (String × Variable)) (h : Heap) (b : Bool) :
    freezeHeap h (nv :: rest) b =
      freezeHeap (if nv.2.trainable then setRG h nv.2.tensor b else h) rest b := by
  by_cases ht : nv.2.trainable <;> simp [freezeHeap, ht, List.foldl_cons]

theorem length_freezeHeap (vars : List (String × Variable)) (h : Heap)
    (b : Bool) : (freezeHeap h vars b).length = h.length := by
  induction vars generalizing h with
  | nil => rfl
  | cons nv rest ih =>
    rw [freezeHeap_cons]
    by_cases ht : nv.2.trainable
    · rw [if_pos ht, ih, length_setRG]
    · rw [if_neg ht, ih]

theorem getT_freezeHeap (vars : List (String × Variable)) (h : Heap)
    (b : Bool) (i : Nat) :
    getT (freezeHeap h vars b) i =
      if (vars.any fun nv => nv.2.trainable && nv.2.tensor == i) = true
          ∧ i < h.length then
        { getT h i with requiresGrad := b }
      else getT h i := by
  induction vars generalizing h with
  | nil => simp [freezeHeap]
  | cons nv rest ih =>
    rw [freezeHeap_cons]
    by_cases ht : nv.2.trainable
    · rw [if_pos ht, ih, length_setRG, getT_setRG]
      by_cases heq : nv.2.tensor = i
      · subst heq
        by_cases hl : nv.2.tensor < h.length
        · by_cases ha :
              (rest.any fun nv2 => nv2.2.trainable && nv2.2.tensor == nv.2.tensor) = true
          · simp [List.any_cons, ht, hl, ha]
          · simp [List.any_cons, ht, hl, ha]
        · simp [List.any_cons, ht, hl]
      · by_cases hl : i < h.length
        · by_cases ha :
              (rest.any fun nv2 => nv2.2.trainable && nv2.2.tensor == i) = true
          · simp [List.any_cons, ht, heq, hl, ha]
          · simp [List.any_cons, ht, heq, hl, ha]
        · simp [List.any_cons, ht, heq, hl]
    · rw [if_neg ht, ih]
      have ht2 : nv.2.trainable = false := by simpa using ht
      rw [List.any_cons, ht2, Bool.false_and, Bool.false_or]

theorem pathName_ok (p : Path) (name : String) (hn : hasSep name = false) :
    p.pathName name = .ok (if p.path.isEmpty then name
      else joinSep SEP.toString p.path ++ SEP.toString ++ name) := by
  by_cases he : p.path.isEmpty <;> simp [Path.pathName, hn, he]

theorem pathName_err (p : Path) (name : String) (hn : hasSep name = true) :
    p.pathName name =
      .error ("variable name cannot contain " ++ SEP.toString ++ " " ++ name) := by
  simp [Path.pathName, hn]

theorem add_eq (p : Path) (s : State) (name : String) (t : TensorId)
    (tr : Bool) (nm : String) (hp : p.pathName name = .ok nm) :
    p.add s name t tr = .ok
      ({ heap := if tr then setRG s.heap t true else s.heap
         vars := insertA s.vars (resolvedKey s.vars nm) ⟨t, tr⟩
         device := s.device }, t) := by
  simp only [Path.add, hp]
  rfl

theorem add_err (p : Path) (s : State) (name : String) (t : TensorId)
    (tr : Bool) (hn : hasSep name = true) :
    p.add s name t tr =
      .error ("variable name cannot contain " ++ SEP.toString ++ " " ++ name) := by
  simp only [Path.add, pathName_err p name hn]
  rfl

theorem add_ok_elim {p : Path} {s : State} {name : String} {t : TensorId}
    {tr : Bool} {s' : State} {tid : TensorId}
    (h : p.add s name t tr = .ok (s', tid)) :
    ∃ nm, p.pathName name = .ok nm ∧ tid = t ∧
      s' = { heap := if tr then setRG s.heap t true else s.heap
             vars := insertA s.vars (resolvedKey s.vars nm) ⟨t, tr⟩
             device := s.device } := by
  cases hp : p.pathName name with
  | error e =>
    rw [Path.add] at h
    rw [hp] at h
    exact Except.noConfusion h
  | ok nm =>
    have h2 : Except.ok
        (({ heap := if tr then setRG s.heap t true else s.heap
            vars := insertA s.vars (resolvedKey s.vars nm) ⟨t, tr⟩
            device := s.device } : State), t) =
        (Except.ok (s', tid) : Except String (State × TensorId)) := by
      rw [← add_eq p s name t tr nm hp]
      exact h
    have h3 := Except.ok.inj h2
    refine ⟨nm, rfl, ?_, ?_⟩
    · exact (congrArg Prod.snd h3).symm
    · exact (congrArg Prod.fst h3).symm

theorem loadGo_ok_names (file : String) (m : List (String × TensorData))
    (l : List (String × Variable)) (h h1 : Heap)
    (hok : loadGo file m h l = (h1, .ok ())) :
    ∀ nv ∈ l, (lookupA m nv.1).isSome = true := by
  induction l generalizing h with
  | nil => intro nv hnv; cases hnv
  | cons nv0 rest ih =>
    obtain ⟨name, v⟩ := nv0
    intro nv hnv
    simp only [loadGo] at hok
    cases hl : lookupA m name with
    | some src =>
      simp only [hl] at hok
      cases hc : fCopy h v.tensor src with
      | ok h2 =>
        simp only [hc] at hok
        rcases List.mem_cons.mp hnv with he | hm
        · subst he; simp [hl]
        · exact ih h2 hok nv hm
      | error e => simp only [hc] at hok; simp at hok
    | none => simp only [hl] at hok; simp at hok

theorem loadGo_append_ok (file : String) (m : List (String × TensorData))
    (l1 l2 : List (String × Variable)) (h h1 : Heap)
    (hok : loadGo file m h l1 = (h1, .ok ())) :
    loadGo file m h (l1 ++ l2) = loadGo file m h1 l2 := by
  induction l1 generalizing h with
  | nil =>
    simp only [loadGo] at hok
    have : h = h1 := congrArg Prod.fst hok
    subst this
    simp
  | cons nv0 rest ih =>
    obtain ⟨name, v⟩ := nv0
    simp only [loadGo, List.cons_append] at hok ⊢
    cases hl : lookupA m name with
    | some src =>
      simp only [hl] at hok ⊢
      cases hc : fCopy h v.tensor src with
      | ok h2 =>
        simp only [hc] at hok ⊢
        exact ih h2 hok
      | error e => simp only [hc] at hok; simp at hok
    | none => simp only [hl] at hok; simp at hok

theorem lastLookup_cons (nt : String × TensorData)
    (rest : List (String × TensorData)) (n : String) :
    lastLookup (nt :: rest) n =
      match lastLookup rest n with
      | some t => some t
      | none => if nt.1 == n then some nt.2 else none := by
  unfold lastLookup
  rw [List.filter_cons]
  by_cases hb : (nt.1 == n) = true
  · rw [if_pos hb]
    cases hf : (rest.filter fun p => p.1 == n) with
    | nil => simp [hf, hb]
    | cons x xs =>
      rw [List.getLast?_cons_cons]
      cases hg : (x :: xs).getLast? with
      | none => exact absurd (List.getLast?_eq_none_iff.mp hg) (List.cons_ne_nil x xs)
      | some y => simp [hg]
  · rw [if_neg hb]
    cases hr : ((rest.filter fun p => p.1 == n).getLast?).map Prod.snd with
    | none => simp [hr, hb]
    | some t => simp [hr]

theorem lookupA_foldl_insertA (bundle : List (String × TensorData))
    (m0 : List (String × TensorData)) (n : String) :
    lookupA (bundle.foldl (fun m nt => insertA m nt.1 nt.2) m0) n =
      match lastLookup bundle n with
      | some t => some t
      | none => lookupA m0 n := by
  induction bundle generalizing m0 with
  | nil => simp [lastLookup]
  | cons nt rest ih =>
    rw [List.foldl_cons, ih, lastLookup_cons]
    cases hr : lastLookup rest n with
    | some t => rfl
    | none =>
      rw [lookupA_insertA]
      by_cases he : n = nt.1
      · subst he; simp
      · have hb : (nt.1 == n) = false := by
          simp [beq_iff_eq]; exact fun h2 => he h2.symm
        simp [he, hb]

theorem lookupA_collectMap (bundle : List (String × TensorData))
    (n : String) :
    lookupA (collectMap bundle) n = lastLookup bundle n := by
  rw [collectMap, lookupA_foldl_insertA]
  cases hr : lastLookup bundle n <;> simp [lookupA]

theorem subChain_ok (segs : List String) (p : Path)
    (hs : ∀ x ∈ segs, hasSep x = false) :
    subChain p segs = .ok ⟨p.path ++ segs⟩ := by
  induction segs generalizing p with
  | nil => simp [subChain]
  | cons sg rest ih =>
    have h1 : hasSep sg = false := hs sg (by simp)
    have h2 : ∀ x ∈ rest, hasSep x = false := fun x hx => hs x (by simp [hx])
    have hsub : p.sub sg = .ok ⟨p.path ++ [sg]⟩ := by
      simp [Path.sub, h1]
    rw [subChain, hsub]
    show subChain ⟨p.path ++ [sg]⟩ rest = Except.ok ⟨p.path ++ sg :: rest⟩
    rw [ih ⟨p.path ++ [sg]⟩ h2]
    simp

theorem appendSize_ne (nm : String) (k : Nat) :
    nm ++ "__" ++ toString k ≠ nm := by
  intro h
  have hlen := congrArg String.length h
  rw [String.length_append, String.length_append] at hlen
  have h2 : ("__" : String).length = 2 := rfl
  omega

theorem freezeHeap_idem (vars : List (String × Variable)) (h : Heap)
    (b : Bool) :
    freezeHeap (freezeHeap h vars b) vars b = freezeHeap h vars b := by
  apply heap_ext
  · simp [length_freezeHeap]
  · intro i
    rw [getT_freezeHeap, getT_freezeHeap, length_freezeHeap]
    by_cases hc : (vars.any fun nv => nv.2.trainable && nv.2.tensor == i) = true
        ∧ i < h.length
    · simp only [if_pos hc]
    · simp only [if_neg hc]

theorem tv_eq_named (l : List (String × Variable)) :
    l.filterMap (fun nv => if nv.2.trainable then some nv.2.tensor else none) =
      (l.filterMap
        (fun nv => if nv.2.trainable then some (nv.1, nv.2.tensor) else none)).map
        Prod.snd := by
  induction l with
  | nil => rfl
  | cons nv rest ih =>
    by_cases ht : nv.2.trainable <;> simp [List.filterMap_cons, ht, ih]

theorem except_bind_ok {α β : Type} (a : α) (f : α → Except String β) :
    (Except.ok a >>= f) = f a := rfl

/-! ### Claim theorems -/

/-- C9: the derivation operator `path / name` (the `Div` implementation)
is the very same operation as `Path::sub`: it takes no store argument (so
it cannot mutate the store), it leaves the original path untouched, and on
a separator-free segment it returns the path whose segment sequence is the
original one extended by that segment. -/
theorem claim_C9 : ∀ (p : Path) (sg : String),
    Path.div p sg = Path.sub p sg
    ∧ (hasSep sg = false → Path.sub p sg = .ok ⟨p.path ++ [sg]⟩) := by
  intro p sg
  refine ⟨rfl, fun h => ?_⟩
  simp [Path.sub, h]

/-- C9 witness: `⟨["a"]⟩ / "b"` equals `⟨["a"]⟩.sub "b"`, which extends
the segments to `["a", "b"]`. -/
theorem claim_C9_witness :
    Path.div ⟨["a"]⟩ "b" = Path.sub ⟨["a"]⟩ "b"
    ∧ Path.sub ⟨["a"]⟩ "b" = .ok ⟨["a", "b"]⟩ :=
  ⟨(claim_C9 ⟨["a"]⟩ "b").1, (claim_C9 ⟨["a"]⟩ "b").2 (by decide)⟩

/-- C5: for a path built from separator-free segments, the
fully-qualified name of a separator-free leaf is the segments joined by
`|` followed by `|` and the leaf when the segment list is non-empty, and
the leaf alone when it is empty; in particular
`root().sub("a").sub("b")` then `"w"` yields `"a|b|w"`. -/
theorem claim_C5 :
    (∀ (segs : List String) (name : String) (p : Path),
      (∀ x ∈ segs, hasSep x = false) → hasSep name = false →
      subChain VarStore.root segs = .ok p →
      p.pathName name =
        .ok (if segs.isEmpty then name
             else joinSep SEP.toString segs ++ SEP.toString ++ name))
    ∧ (do (← (← VarStore.root.sub "a").sub "b").pathName "w") =
        Except.ok "a|b|w" := by
  constructor
  · intro segs name p hsegs hname hchain
    rw [subChain_ok segs VarStore.root hsegs] at hchain
    have hp : p = ⟨segs⟩ := by
      have := Except.ok.inj hchain
      simp [VarStore.root] at this
      exact this.symm
    subst hp
    rw [pathName_ok _ name hname]
  · rfl

/-- C5 witness: the fully-qualified name of `"w"` under segments
`["a", "b"]` is `"a|b|w"`. -/
theorem claim_C5_witness :
    Path.pathName ⟨["a", "b"]⟩ "w" = .ok "a|b|w" := by
  have h := claim_C5.1 ["a", "b"] "w" ⟨["a", "b"]⟩ (by decide) (by decide)
    (by rfl)
  simpa using h

/-- C6: when the requested leaf name contains the separator, `Path::add`
and every variable-creation wrapper abort (modelled as `Except.error`, so
no successor state exists and in particular the store's variable map is
exactly what it was — no partial insert); likewise `Path::sub` aborts on a
separator-containing segment without producing a path. -/
theorem claim_C6 :
    ∀ (p : Path) (s : State) (name : String) (t : TensorId) (tr : Bool)
      (dims : List Int) (i : Init) (mean stdev lo up : Rat),
    hasSep name = true →
    (∃ e, Path.add p s name t tr = .error e)
    ∧ (∃ e, Path.zeros_no_train p s name dims = .error e)
    ∧ (∃ e, Path.ones_no_train p s name dims = .error e)
    ∧ (∃ e, Path.var p s name dims i = .error e)
    ∧ (∃ e, Path.zeros p s name dims = .error e)
    ∧ (∃ e, Path.ones p s name dims = .error e)
    ∧ (∃ e, Path.randn_standard p s name dims = .error e)
    ∧ (∃ e, Path.randn p s name dims mean stdev = .error e)
    ∧ (∃ e, Path.uniform p s name dims lo up = .error e)
    ∧ (∃ e, Path.kaiming_uniform p s name dims = .error e)
    ∧ (∃ e, Path.var_copy p s name t = .error e)
    ∧ (∀ sg, hasSep sg = true → ∃ e, Path.sub p sg = .error e) := by
  intro p s name t tr dims i mean stdev lo up hn
  have hz : ∀ (s0 : State) (t0 : TensorId) (tr0 : Bool),
      Path.add p s0 name t0 tr0 =
        .error ("variable name cannot contain " ++ SEP.toString ++ " " ++ name) :=
    fun s0 t0 tr0 => add_err p s0 name t0 tr0 hn
  refine ⟨⟨_, hz s t tr⟩, ⟨_, hz _ _ _⟩, ⟨_, hz _ _ _⟩, ⟨_, hz _ _ _⟩,
    ⟨_, hz _ _ _⟩, ⟨_, hz _ _ _⟩, ⟨_, hz _ _ _⟩, ⟨_, hz _ _ _⟩,
    ⟨_, hz _ _ _⟩, ⟨_, hz _ _ _⟩, ?_, ?_⟩
  · have hz2 : p.zeros s name (getT s.heap t).shape =
        Except.error
          ("variable name cannot contain " ++ SEP.toString ++ " " ++ name) :=
      hz _ _ _
    refine ⟨"variable name cannot contain " ++ SEP.toString ++ " " ++ name, ?_⟩
    simp only [Path.var_copy, hz2]
    rfl
  · intro sg hsg
    exact ⟨"sub name cannot contain " ++ SEP.toString ++ " " ++ sg,
      by simp [Path.sub, hsg]⟩

/-- C6 witness: the name `"a|b"` contains the separator and the creation
call on a fresh store aborts. -/
theorem claim_C6_witness :
    hasSep "a|b" = true
    ∧ (∃ e, Path.add ⟨[]⟩ (VarStore.new Device.Cpu) "a|b" 0 true = .error e) :=
  ⟨by decide,
    (claim_C6 ⟨[]⟩ (VarStore.new Device.Cpu) "a|b" 0 true [1]
      Init.KaimingUniform 0 1 0 1 (by decide)).1⟩

/-- C8: `freeze` and `unfreeze` are idempotent — a second consecutive call
leaves the whole state (heap gradient-tracking flags included) exactly as
after the first — and neither call changes the variable map at all, so in
particular every variable's trainable flag and the key set are
untouched. -/
theorem claim_C8 : ∀ s : State,
    VarStore.freeze (VarStore.freeze s) = VarStore.freeze s
    ∧ VarStore.unfreeze (VarStore.unfreeze s) = VarStore.unfreeze s
    ∧ (VarStore.freeze s).vars = s.vars
    ∧ (VarStore.unfreeze s).vars = s.vars
    ∧ (VarStore.freeze s).device = s.device
    ∧ (VarStore.unfreeze s).device = s.device := by
  intro s
  refine ⟨?_, ?_, rfl, rfl, rfl, rfl⟩
  · show (⟨freezeHeap (freezeHeap s.heap s.vars false) s.vars false,
      s.vars, s.device⟩ : State) = ⟨freezeHeap s.heap s.vars false, s.vars, s.device⟩
    rw [freezeHeap_idem]
  · show (⟨freezeHeap (freezeHeap s.heap s.vars true) s.vars true,
      s.vars, s.device⟩ : State) = ⟨freezeHeap s.heap s.vars true, s.vars, s.device⟩
    rw [freezeHeap_idem]

/-- C2: when an `add` call resolves to a fully-qualified name `nm` that is
already a key, the variable is stored under the disambiguated key
`nm ++ "__" ++ <map size at insertion>`, which differs from `nm`; the
earlier entry under `nm` is untouched, and both variables appear as
separate named entries in `save`'s snapshot. -/
theorem claim_C2 : ∀ (p : Path) (s : State) (name : String) (t : TensorId)
    (tr : Bool) (nm : String) (s' : State) (tid : TensorId),
    p.pathName name = .ok nm →
    containsKey s.vars nm = true →
    p.add s name t tr = .ok (s', tid) →
    resolvedKey s.vars nm = nm ++ "__" ++ toString s.vars.length
    ∧ resolvedKey s.vars nm ≠ nm
    ∧ lookupA s'.vars (resolvedKey s.vars nm) = some ⟨t, tr⟩
    ∧ lookupA s'.vars nm = lookupA s.vars nm
    ∧ lookupA (VarStore.save s') (resolvedKey s.vars nm) =
        some (getT s'.heap t)
    ∧ (lookupA (VarStore.save s') nm).isSome = true := by
  intro p s name t tr nm s' tid hpn hck hadd
  obtain ⟨nm2, hpn2, htid, hs'⟩ := add_ok_elim hadd
  have hnm : nm2 = nm := Except.ok.inj (hpn2.symm.trans hpn)
  subst nm2
  have hkey : resolvedKey s.vars nm = nm ++ "__" ++ toString s.vars.length := by
    rw [resolvedKey, if_pos hck]
  have hne : resolvedKey s.vars nm ≠ nm := by
    rw [hkey]; exact appendSize_ne nm s.vars.length
  have hvars : s'.vars = insertA s.vars (resolvedKey s.vars nm) ⟨t, tr⟩ := by
    rw [hs']
  have hlk : lookupA s'.vars (resolvedKey s.vars nm) = some ⟨t, tr⟩ := by
    rw [hvars, lookupA_insertA]
    simp
  have hlnm : lookupA s'.vars nm = lookupA s.vars nm := by
    rw [hvars, lookupA_insertA, if_neg (fun h => hne h.symm)]
  have hsave : ∀ k, lookupA (VarStore.save s') k =
      (lookupA s'.vars k).map (fun v => getT s'.heap v.tensor) := by
    intro k
    exact lookupA_map_snd (fun v => getT s'.heap v.tensor) s'.vars k
  refine ⟨hkey, hne, hlk, hlnm, ?_, ?_⟩
  · rw [hsave, hlk]; rfl
  · rw [hsave, hlnm]
    have : (lookupA s.vars nm).isSome = true := hck
    cases hv : lookupA s.vars nm with
    | none => rw [hv] at this; cases this
    | some v => simp [hv]

/-- C2 witness: adding a second `"w"` to a store already holding `"w"`
stores it under `"w__1"`; both entries are present afterwards. -/
theorem claim_C2_witness :
    lookupA cC2after.vars "w__1" = some ⟨1, false⟩
    ∧ lookupA cC2after.vars "w" = some ⟨0, false⟩ := by
  have h := claim_C2 VarStore.root cC2before "w" 1 false "w" cC2after 1
    (by rfl) (by decide) (by rfl)
  have e1 : resolvedKey cC2before.vars "w" = "w__1" := by decide
  refine ⟨?_, ?_⟩
  · have h3 := h.2.2.1
    rw [e1] at h3
    exact h3
  · have h4 := h.2.2.2.1
    rw [h4]
    decide

/-- C1 counterexample: the collision fallback key can coincide with an
existing key, and then `insert` silently replaces that entry.  Concretely:
create `"a__2"`, then `"a"`, then `"a"` again (all through the public
`zeros_no_train` wrapper on a fresh store); the third call resolves to
`"a"`, collides, is renamed to `"a" ++ "__" ++ "2"` = `"a__2"`, and the
insertion replaces the first variable (tensor `0`) with the new one
(tensor `2`). -/
theorem claim_C1_counterexample :
    (c1run2.toOption.map (fun st => lookupA st.1.vars "a__2")) =
      some (some ⟨0, false⟩)
    ∧ (c1run3.toOption.map (fun st => lookupA st.1.vars "a__2")) =
      some (some ⟨2, false⟩)
    ∧ (⟨0, false⟩ : Variable) ≠ (⟨2, false⟩ : Variable) := by
  refine ⟨by decide, by decide, by decide⟩

/-- C1 (amended): `Path::add` never replaces an existing map entry —
provided the key it actually inserts under (the resolved name, after the
collision fallback) is not itself already present.  The exception the
counterexample exhibits, a fallback name coinciding with an existing key,
is the documented weakness of the collision policy. -/
theorem claim_C1 : ∀ (p : Path) (s : State) (name : String) (t : TensorId)
    (tr : Bool) (nm : String) (s' : State) (tid : TensorId),
    p.pathName name = .ok nm →
    p.add s name t tr = .ok (s', tid) →
    containsKey s.vars (resolvedKey s.vars nm) = false →
    ∀ k v, lookupA s.vars k = some v → lookupA s'.vars k = some v := by
  intro p s name t tr nm s' tid hpn hadd hfree k v hk
  obtain ⟨nm2, hpn2, htid, hs'⟩ := add_ok_elim hadd
  have hnm : nm2 = nm := Except.ok.inj (hpn2.symm.trans hpn)
  subst nm2
  have hvars : s'.vars = insertA s.vars (resolvedKey s.vars nm) ⟨t, tr⟩ := by
    rw [hs']
  rw [hvars, lookupA_insertA]
  by_cases hkk : k = resolvedKey s.vars nm
  · subst hkk
    rw [containsKey, hk] at hfree
    cases hfree
  · rw [if_neg hkk]
    exact hk

/-- C1 witness: adding a fresh `"y"` to a store holding `"x"` preserves
the `"x"` entry. -/
theorem claim_C1_witness :
    lookupA cC1after.vars "x" = some ⟨0, false⟩ :=
  claim_C1 VarStore.root cC1s "y" 1 false "y" cC1after 1 (by rfl) (by rfl)
    (by decide) "x" ⟨0, false⟩ (by decide)

/-- C4: `trainable_variables` is exactly the tensor-handle view of the
trainable-by-name entries; any interleaving of `freeze`/`unfreeze` calls
changes neither the variable map nor the returned set (same count, same
identity-by-name, same shared handles); and an `add` call stores the new
entry with exactly the trainable flag it was given, returning a handle
sharing the stored tensor. -/
theorem claim_C4 :
    (∀ s : State,
      VarStore.trainable_variables s = (trainableNamed s).map Prod.snd)
    ∧ (∀ (s : State) (ops : List TOp), (runT s ops).vars = s.vars)
    ∧ (∀ (s : State) (ops : List TOp),
        trainableNamed (runT s ops) = trainableNamed s
        ∧ VarStore.trainable_variables (runT s ops) =
            VarStore.trainable_variables s)
    ∧ (∀ (p : Path) (s : State) (name : String) (t : TensorId) (tr : Bool)
        (nm : String) (s' : State) (tid : TensorId),
        p.pathName name = .ok nm →
        p.add s name t tr = .ok (s', tid) →
        tid = t ∧ lookupA s'.vars (resolvedKey s.vars nm) = some ⟨t, tr⟩) := by
  have hvars : ∀ (s : State) (ops : List TOp), (runT s ops).vars = s.vars := by
    intro s ops
    induction ops generalizing s with
    | nil => rfl
    | cons op rest ih =>
      cases op with
      | freeze => exact (ih (VarStore.freeze s)).trans rfl
      | unfreeze => exact (ih (VarStore.unfreeze s)).trans rfl
  refine ⟨?_, hvars, ?_, ?_⟩
  · intro s
    exact tv_eq_named s.vars
  · intro s ops
    constructor
    · show (runT s ops).vars.filterMap _ = s.vars.filterMap _
      rw [hvars]
    · show (runT s ops).vars.filterMap _ = s.vars.filterMap _
      rw [hvars]
  · intro p s name t tr nm s' tid hpn hadd
    obtain ⟨nm2, hpn2, htid, hs'⟩ := add_ok_elim hadd
    have hnm : nm2 = nm := Except.ok.inj (hpn2.symm.trans hpn)
    subst nm2
    refine ⟨htid, ?_⟩
    have hvars2 : s'.vars = insertA s.vars (resolvedKey s.vars nm) ⟨t, tr⟩ := by
      rw [hs']
    rw [hvars2, lookupA_insertA]
    simp

/-- C4 witness: adding `"w"` with `trainable = true` to a fresh store
returns the allocated handle and stores the entry with flag `true`. -/
theorem claim_C4_witness :
    (0 : TensorId) = 0
    ∧ lookupA cC4after.vars
        (resolvedKey (VarStore.new Device.Cpu).vars "w") = some ⟨0, true⟩ :=
  claim_C4.2.2.2 VarStore.root (VarStore.new Device.Cpu) "w" 0 true "w"
    cC4after 0 (by rfl) (by rfl)

/-- C3: `load` succeeds only when every store variable's name is present
in the loaded bundle (bundle names absent from the store are simply never
consulted); when the walk reaches the first variable, in the map's
iteration order, whose name is missing — every earlier variable having
been found and copied — it stops with the not-found error naming that
variable and the source path, and the copies already performed into the
earlier variables are kept (no rollback).  The closed conjunct shows this
concretely: variable `"a"` is overwritten with the bundle value before the
failure on `"b"` is reported. -/
theorem claim_C3 :
    (∀ (s : State) (bundle : List (String × TensorData)) (file : String)
        (s' : State),
      VarStore.load s bundle file = (s', .ok ()) →
      ∀ nv ∈ s.vars, (lookupA (collectMap bundle) nv.1).isSome = true)
    ∧ (∀ (s : State) (bundle : List (String × TensorData)) (file : String)
        (l1 rest : List (String × Variable)) (name : String) (v : Variable)
        (h1 : Heap),
      s.vars = l1 ++ (name, v) :: rest →
      loadGo file (collectMap bundle) s.heap l1 = (h1, .ok ()) →
      lookupA (collectMap bundle) name = none →
      VarStore.load s bundle file =
        ({ s with heap := h1 },
         .error ("cannot find " ++ name ++ " in " ++ file)))
    ∧ VarStore.load cLoadState cLoadBundle "f" =
        ({ cLoadState with heap := [mkT [1] [7], mkT [1] [6]] },
         .error ("cannot find " ++ "b" ++ " in " ++ "f")) := by
  refine ⟨?_, ?_, by rfl⟩
  · intro s bundle file s' hload
    cases hgo : loadGo file (collectMap bundle) s.heap s.vars with
    | mk h1 r =>
      have hload2 : ({ s with heap := h1 }, r) = (s', Except.ok ()) := by
        rw [← hload]
        simp [VarStore.load, hgo]
      have hr : r = .ok () := congrArg Prod.snd hload2
      exact loadGo_ok_names file (collectMap bundle) s.vars s.heap h1
        (by rw [hgo, hr])
  · intro s bundle file l1 rest name v h1 hsplit hpre hmiss
    have hgo : loadGo file (collectMap bundle) s.heap s.vars =
        (h1, .error ("cannot find " ++ name ++ " in " ++ file)) := by
      rw [hsplit, loadGo_append_ok file (collectMap bundle) l1 _ s.heap h1 hpre]
      simp only [loadGo, hmiss]
    simp only [VarStore.load, hgo]

/-- C3 witness: loading a bundle holding only `"a"` into a store with
variables `"a"` and `"b"` overwrites `"a"` and then fails naming `"b"`. -/
theorem claim_C3_witness :
    VarStore.load cLoadState cLoadBundle "g" =
      ({ cLoadState with heap := [mkT [1] [7], mkT [1] [6]] },
       .error ("cannot find " ++ "b" ++ " in " ++ "g")) :=
  claim_C3.2.1 cLoadState cLoadBundle "g" [("a", ⟨0, false⟩)] []
    "b" ⟨1, false⟩ [mkT [1] [7], mkT [1] [6]] (by rfl) (by rfl) (by rfl)

/-- C10: the loaded bundle is collected into a name-keyed map with
later pairs replacing earlier ones, so for every store variable the copied
values are those of the last bundle pair carrying its name; duplication is
not reported as an error — the closed conjunct loads a bundle with two
`"x"` pairs successfully and ends with the last pair's values. -/
theorem claim_C10 :
    (∀ (bundle : List (String × TensorData)) (n : String),
      lookupA (collectMap bundle) n = lastLookup bundle n)
    ∧ VarStore.load cDupState cDupBundle "f" =
        ({ cDupState with heap := [mkT [1] [9]] }, .ok ()) :=
  ⟨lookupA_collectMap, by rfl⟩

/-- C7: a failing in-place copy inside `load` is surfaced to the caller as
a recoverable error value whose message is the affected variable's name,
a separator, and the primitive's message (first conjunct).  Inside
`var_copy` the copy primitive is the aborting `copy_`, but its failure
condition is never reached: the destination is freshly created with the
source's shape, so whenever the variable creation stage succeeds the
whole call returns a value (second conjunct) — the mismatch case of the
claim is vacuous there. -/
theorem claim_C7 :
    (∀ (s : State) (bundle : List (String × TensorData)) (file : String)
        (l1 rest : List (String × Variable)) (name : String) (v : Variable)
        (h1 : Heap) (src : TensorData) (e : String),
      s.vars = l1 ++ (name, v) :: rest →
      loadGo file (collectMap bundle) s.heap l1 = (h1, .ok ()) →
      lookupA (collectMap bundle) name = some src →
      fCopy h1 v.tensor src = .error e →
      VarStore.load s bundle file =
        ({ s with heap := h1 }, .error (name ++ ": " ++ e)))
    ∧ (∀ (p : Path) (s : State) (name : String) (t : TensorId) (s1 : State)
        (v : TensorId),
      p.zeros s name (getT s.heap t).shape = .ok (s1, v) →
      ∃ s2, p.var_copy s name t = .ok (s2, v)) := by
  constructor
  · intro s bundle file l1 rest name v h1 src e hsplit hpre hsome hcopy
    have hgo : loadGo file (collectMap bundle) s.heap s.vars =
        (h1, .error (name ++ ": " ++ e)) := by
      rw [hsplit, loadGo_append_ok file (collectMap bundle) l1 _ s.heap h1 hpre]
      simp only [loadGo, hsome, hcopy]
    simp only [VarStore.load, hgo]
  · intro p s name t s1 v hz
    have hz2 : p.add
        { s with heap := s.heap ++
            [init (Init.Const 0) (getT s.heap t).shape s.device] }
        name s.heap.length true = .ok (s1, v) := hz
    obtain ⟨nm, hpn, hv, hs1⟩ := add_ok_elim hz2
    subst hv
    have hheap : s1.heap =
        setRG (s.heap ++
          [init (Init.Const 0) (getT s.heap t).shape s.device])
          s.heap.length true := by
      rw [hs1]
      rfl
    have hlen : (s.heap ++
        [init (Init.Const 0) (getT s.heap t).shape s.device]).length =
        s.heap.length + 1 := by simp
    have hv_shape : (getT s1.heap s.heap.length).shape = (getT s.heap t).shape := by
      rw [hheap, getT_setRG]
      have hc : s.heap.length = s.heap.length ∧
          s.heap.length < (s.heap ++
            [init (Init.Const 0) (getT s.heap t).shape s.device]).length := by
        refine ⟨rfl, ?_⟩
        rw [hlen]
        omega
      rw [if_pos hc]
      show (getT (s.heap ++
        [init (Init.Const 0) (getT s.heap t).shape s.device])
        s.heap.length).shape = (getT s.heap t).shape
      rw [getT_append1]
      simp [init]
    have hsrc_shape : (getT s1.heap t).shape = (getT s.heap t).shape := by
      rw [hheap, getT_setRG]
      by_cases hcase : s.heap.length = t ∧ s.heap.length < (s.heap ++
          [init (Init.Const 0) (getT s.heap t).shape s.device]).length
      · rw [if_pos hcase]
        show (getT (s.heap ++
          [init (Init.Const 0) (getT s.heap t).shape s.device])
          s.heap.length).shape = (getT s.heap t).shape
        rw [getT_append1]
        simp [init]
      · rw [if_neg hcase]
        rw [getT_append1]
        by_cases hlt : t < s.heap.length
        · rw [if_pos hlt]
        · rw [if_neg hlt]
          by_cases heq : t = s.heap.length
          · exfalso
            apply hcase
            refine ⟨heq.symm, ?_⟩
            rw [hlen]
            omega
          · rw [if_neg heq]
            have hnone : getT s.heap t = dfltT := by
              simp [getT, List.getD_eq_getElem?_getD,
                List.getElem?_eq_none (Nat.le_of_not_lt hlt)]
            rw [hnone]
    have hcopy : fCopy s1.heap s.heap.length (getT s1.heap t) =
        .ok (copyValues s1.heap s.heap.length (getT s1.heap t).values) := by
      rw [fCopy, if_pos (hv_shape.trans hsrc_shape.symm)]
    refine ⟨⟨copyValues s1.heap s.heap.length (getT s1.heap t).values,
      s1.vars, s1.device⟩, ?_⟩
    simp only [Path.var_copy, hz, except_bind_ok]
    simp only [hcopy, except_bind_ok]

/-- C7 witness: loading a wrong-shape bundle entry for `"a"` yields the
error value `"a: copy: shape mismatch"` (no abort, name attached), and a
concrete `var_copy` on the same store returns a value. -/
theorem claim_C7_witness :
    VarStore.load cC7s cC7bundle "f" =
      ({ cC7s with heap := cC7s.heap },
       .error ("a" ++ ": " ++ "copy: shape mismatch"))
    ∧ ∃ s2, Path.var_copy VarStore.root cC7s "n" 0 = .ok (s2, 1) := by
  constructor
  · exact claim_C7.1 cC7s cC7bundle "f" [] [] "a" ⟨0, false⟩ cC7s.heap
      (mkT [2] [7, 8]) "copy: shape mismatch" (by rfl) (by rfl) (by rfl)
      (by rfl)
  · exact claim_C7.2 VarStore.root cC7s "n" 0 cC7s1 1 (by rfl)

end Tch
